import Mathlib

/-!
Verification of the KoboToolbox dashboard (`src/streamlit_app.py`).

The script fetches survey submissions from a remote API, flattens the JSON
`results` array into a table via `pd.json_normalize`, lets the user filter
rows by column/value selections, draws a value-count bar chart, extracts
lat/lon-like columns for a map, and exports the filtered table to CSV.

We embed the data model shallowly: JSON values are a (mutual) inductive
type, a table is a list of flattened records (association lists from column
name to cell value, a missing key standing for pandas `NaN`), and each
operation of the script is a Lean function translated from the
corresponding source lines.
-/

/-- Column and field names; we work with explicit character lists so that
case folding and substring scanning (the geo-column heuristic) stay
elementary. -/
abbrev Name := List Char

mutual
/-- JSON values as delivered by `r.json()`.  `null` also stands for the
`NaN` that pandas puts in cells whose key is absent from a record. -/
inductive Json where
  | null : Json
  | bool (b : Bool) : Json
  | num (n : Int) : Json
  | str (s : Name) : Json
  | arr (elems : JsonList) : Json
  | obj (fields : JsonFields) : Json
deriving DecidableEq

/-- The elements of a JSON array. -/
inductive JsonList where
  | nil : JsonList
  | cons (hd : Json) (tl : JsonList) : JsonList
deriving DecidableEq

/-- The key/value fields of a JSON object, in document order. -/
inductive JsonFields where
  | fnil : JsonFields
  | fcons (key : Name) (val : Json) (tl : JsonFields) : JsonFields
deriving DecidableEq
end

/-- Shorthand to write a concrete column name. -/
def nm (s : String) : Name := s.toList

/-- The fields of a JSON object as an ordinary list of pairs. -/
def toListF : JsonFields → List (Name × Json)
  | JsonFields.fnil => []
  | JsonFields.fcons k v tl => (k, v) :: toListF tl

/-- The keys of a JSON object, in order. -/
def keysF : JsonFields → List Name
  | JsonFields.fnil => []
  | JsonFields.fcons k _ tl => k :: keysF tl

/-- Python `dict.get`: the value of the first field named `k`. -/
def lookupF (k : Name) : JsonFields → Option Json
  | JsonFields.fnil => none
  | JsonFields.fcons k' v tl => if k' = k then some v else lookupF k tl

/-- `str.lower()` on a column name. -/
def lowerName (c : Name) : Name := c.map Char.toLower

/-- Does `p` occur at the head of `l`? -/
def isPrefixL : Name → Name → Bool
  | [], _ => true
  | _ :: _, [] => false
  | a :: p, b :: l => a == b && isPrefixL p l

/-- Does `p` occur as a contiguous substring of `l` (Python `p in l`)? -/
def isSubL (p : Name) : Name → Bool
  | [] => p.isEmpty
  | b :: l => isPrefixL p (b :: l) || isSubL p l

/-- `"lat" in c.lower() or "lon" in c.lower()` — the geo-column heuristic of
line 150 of `streamlit_app.py`. -/
def isGeoLike (c : Name) : Bool :=
  isSubL (nm "lat") (lowerName c) || isSubL (nm "lon") (lowerName c)

/-- `geo_cols = [c for c in df.columns if "lat" in c.lower() or "lon" in c.lower()]`
(line 150). -/
def geoCols (cols : List Name) : List Name := cols.filter isGeoLike

/-- `lat_col = geo_cols[0]` (line 155), as an option so that arbitrary
tables can be discussed. -/
def latCol? (cols : List Name) : Option Name := (geoCols cols).get? 0

/-- `lon_col = geo_cols[1]` (line 156). -/
def lonCol? (cols : List Name) : Option Name := (geoCols cols).get? 1

/-- The per-role choice the specification describes: the first column whose
name contains the given substring case-insensitively. -/
def firstWithRole (role : Name) (cols : List Name) : Option Name :=
  cols.find? (fun c => isSubL role (lowerName c))

mutual
/-- `pd.json_normalize` (line 51) on a single value sitting under the flat
key `key`: a nested object is flattened recursively, its keys joined to
`key` with `.`; any other value (scalars and arrays alike) becomes one
cell. -/
def flattenVal (key : Name) : Json → List (Name × Json)
  | Json.obj fs => flattenFields (key ++ ['.']) fs
  | v => [(key, v)]

/-- Flatten the fields of a (possibly nested) record under prefix `pre`. -/
def flattenFields (pre : Name) : JsonFields → List (Name × Json)
  | JsonFields.fnil => []
  | JsonFields.fcons k v tl => flattenVal (pre ++ k) v ++ flattenFields pre tl
end

/-- Flatten one record of the `results` array. -/
def flatRecord : Json → List (Name × Json)
  | Json.obj fs => flattenFields [] fs
  | _ => []

/-- A flattened record: column name to cell value; a missing column reads as
pandas `NaN`. -/
abbrev Row := List (Name × Json)

/-- The cell of row `r` in column `c`; a missing key is pandas `NaN`. -/
def getVal (r : Row) (c : Name) : Json := (r.lookup c).getD Json.null

/-- Distinct elements in first-seen order (pandas column/`unique` order),
with the already-seen elements accumulated in `seen`. -/
def dedupFirstAux {α : Type} [DecidableEq α] (seen : List α) : List α → List α
  | [] => []
  | a :: l => if a ∈ seen then dedupFirstAux seen l else a :: dedupFirstAux (a :: seen) l

/-- Distinct elements of a list in first-seen order. -/
def dedupFirst {α : Type} [DecidableEq α] (l : List α) : List α := dedupFirstAux [] l

/-- The Submission Table: the column set is the union of keys across the
flattened records (first-seen order); the rows are the flattened records. -/
structure Table where
  cols : List Name
  rows : List Row
deriving DecidableEq

/-- `pd.json_normalize(results)` (line 51). -/
def normalizeTable (records : List Json) : Table :=
  let flat := records.map flatRecord
  { cols := dedupFirst (flat.flatMap (fun r => r.map Prod.fst))
  , rows := flat }

/-- Lines 106–111: starting from `df.copy()`, each column of the user's
selection whose chosen value list is non-empty keeps only the rows whose
cell `isin` the chosen values; a column with no chosen values is skipped
(`if vals:`). -/
def applyFilters (sel : List (Name × List Json)) (rows : List Row) : List Row :=
  sel.foldl
    (fun acc p =>
      if p.2.isEmpty then acc
      else acc.filter (fun r => p.2.contains (getVal r p.1)))
    rows

/-- The selection predicate of the spec: every selected column's cell is a
member of that column's accepted set. -/
def selPred (sel : List (Name × List Json)) (r : Row) : Bool :=
  sel.all (fun p => p.2.contains (getVal r p.1))

/-- Values a pandas column can hold without `value_counts`/plotly raising:
`list` and `dict` cells are unhashable. -/
def isScalar : Json → Bool
  | Json.arr _ => false
  | Json.obj _ => false
  | _ => true

/-- Comparison presenting value counts in descending count order. -/
def countGE (p q : Json × Nat) : Prop := q.2 ≤ p.2

instance : DecidableRel countGE := fun p q => Nat.decLe q.2 p.2

instance : IsTotal (Json × Nat) countGE := ⟨fun p q => Nat.le_total q.2 p.2⟩

instance : IsTrans (Json × Nat) countGE := ⟨fun _ _ _ h h' => Nat.le_trans h' h⟩

/-- `filtered_df[chart_col].value_counts()` (line 131): the occurrences of
each distinct non-null value of the column, in descending count order. -/
def valueCounts (col : List Json) : List (Json × Nat) :=
  let nn := col.filter (fun v => !(v == Json.null))
  List.insertionSort countGE ((dedupFirst nn).map (fun v => (v, nn.count v)))

/-- The values of column `c` down the rows of table `t`. -/
def colVals (t : Table) (c : Name) : List Json := t.rows.map (fun r => getVal r c)

/-- Lines 130–143: the chart body runs under `try`; it raises (and is
caught) when the column holds unhashable cells, otherwise it yields the
value counts. -/
def buildChart (t : Table) (c : Name) : Option (List (Json × Nat)) :=
  if (colVals t c).all isScalar then some (valueCounts (colVals t c)) else none

/-- Lines 150–159: with at least two geo-like columns, project onto
`geo_cols[0], geo_cols[1]` and `dropna()`; with fewer, the map section is
skipped. -/
def extractGeoPoints (t : Table) : Option (List (Json × Json)) :=
  match geoCols t.cols with
  | c0 :: c1 :: _ =>
      some ((t.rows.map (fun r => (getVal r c0, getVal r c1))).filter
        (fun p => !(p.1 == Json.null) && !(p.2 == Json.null)))
  | _ => none

/-- `filtered_df.to_csv(index=False)` (line 170): header row plus one line
of cells per row, no index column. -/
def toCsv (t : Table) : List Name × List (List Json) :=
  (t.cols, t.rows.map (fun r => t.cols.map (getVal r)))

/-- What the analytics/map/export part of one render pass produces
(lines 128–176): the chart (`none` when the `try` of lines 130–143 fell
into its `except` and only a warning was shown), the optional geo point
table, and the CSV export. -/
structure RenderPass where
  chart : Option (List (Json × Nat))
  geo : Option (List (Json × Json))
  csv : List Name × List (List Json)
deriving DecidableEq

/-- Lines 128–176 on the filtered table `t` with chart column `c`. -/
def renderPass (t : Table) (c : Name) : RenderPass :=
  { chart := buildChart t c
  , geo := extractGeoPoints t
  , csv := toCsv t }

/-- An HTTP response; `body = none` models a body `r.json()` cannot parse. -/
structure HttpResponse where
  status : Nat
  body : Option Json
deriving DecidableEq

/-- The outcome of `fetch_kobo_data`: a non-200 status and a raised
exception both return `None` after an error message (lines 47–56); the
spec names the two error shapes `RemoteUnavailable` and
`MalformedResponse`. -/
inductive FetchOutcome where
  | remoteUnavailable (status : Nat) : FetchOutcome
  | malformedResponse : FetchOutcome
  | success (t : Table) : FetchOutcome
deriving DecidableEq

/-- The elements of a JSON array as an ordinary list. -/
def jsonListToList : JsonList → List Json
  | JsonList.nil => []
  | JsonList.cons a tl => a :: jsonListToList tl

/-- `data.get("results", [])` (line 51): a missing key defaults to the
empty list; a non-dict body or a non-listlike `results` value raises
inside the `try` (`json_normalize` also accepts a single dict). -/
def getResults? : Json → Option (List Json)
  | Json.obj fs =>
      match lookupF (nm "results") fs with
      | some (Json.arr xs) => some (jsonListToList xs)
      | some (Json.obj fs') => some [Json.obj fs']
      | some _ => none
      | none => some []
  | _ => none

/-- `fetch_kobo_data` (lines 40–56). -/
def fetchKobo (resp : HttpResponse) : FetchOutcome :=
  if resp.status ≠ 200 then FetchOutcome.remoteUnavailable resp.status
  else
    match resp.body with
    | some j =>
        match getResults? j with
        | some recs => FetchOutcome.success (normalizeTable recs)
        | none => FetchOutcome.malformedResponse
    | none => FetchOutcome.malformedResponse

/-- What one dashboard cycle renders (lines 62–76): a fetch failure stops
the cycle with no table, an empty table stops it with the informational
empty-result message, otherwise the table is rendered. -/
inductive CycleOutcome where
  | fetchFailed (status : Nat) : CycleOutcome
  | malformed : CycleOutcome
  | emptyInfo : CycleOutcome
  | rendered (t : Table) : CycleOutcome
deriving DecidableEq

/-- One fetch-render cycle, lines 68–76. -/
def runCycle (resp : HttpResponse) : CycleOutcome :=
  match fetchKobo resp with
  | FetchOutcome.remoteUnavailable s => CycleOutcome.fetchFailed s
  | FetchOutcome.malformedResponse => CycleOutcome.malformed
  | FetchOutcome.success t =>
      if t.rows.isEmpty then CycleOutcome.emptyInfo else CycleOutcome.rendered t

/-- Modelled from the spec: the cooperative timer mode (`st.autorefresh`,
line 35, a service of the hosting framework, outside this source)
re-executes the whole script once per tick, so a run over `n` ticks is the
per-tick cycle applied to each tick's response in sequence. -/
def runTicks (resps : List HttpResponse) : List CycleOutcome := resps.map runCycle

/-- Python `name.split(".")`. -/
def splitDot : Name → List Name
  | [] => [[]]
  | c :: rest =>
      if c = '.' then [] :: splitDot rest
      else
        match splitDot rest with
        | [] => [[c]]
        | s :: ss => (c :: s) :: ss

/-- Replace the value under key `k` by `f` of it, or append the field
`(k, f dflt)` when `k` is absent. -/
def updateField (k : Name) (f : Json → Json) (dflt : Json) : JsonFields → JsonFields
  | JsonFields.fnil => JsonFields.fcons k (f dflt) JsonFields.fnil
  | JsonFields.fcons k' w tl =>
      if k' = k then JsonFields.fcons k' (f w) tl
      else JsonFields.fcons k' w (updateField k f dflt tl)

/-- Insert value `v` at the nested key path `path` of `j`, materialising
empty objects along the way (non-objects on the path are overwritten). -/
def insertPath : List Name → Json → Json → Json
  | [], v, _ => v
  | k :: rest, v, j =>
      let fs := match j with
        | Json.obj fs => fs
        | _ => JsonFields.fnil
      Json.obj (updateField k (insertPath rest v) (Json.obj JsonFields.fnil) fs)

/-- Modelled from the spec: re-nesting a flattened record on `.`-separated
column names (the inverse direction of `json_normalize`; the source never
implements it, the spec's round-trip property defines it). -/
def unflattenRecord (cells : Row) : Json :=
  cells.foldl (fun acc p => insertPath (splitDot p.1) p.2 acc) (Json.obj JsonFields.fnil)

/-- Are all field values of a record scalars (a "flat object")? -/
def scalarsF : JsonFields → Bool
  | JsonFields.fnil => true
  | JsonFields.fcons _ v tl => isScalar v && scalarsF tl

/-- Do all keys of a record avoid the `.` separator? -/
def dotFreeF : JsonFields → Bool
  | JsonFields.fnil => true
  | JsonFields.fcons k _ tl => !(k.contains '.') && dotFreeF tl

/-- Append one field at the end of a record. -/
def snocF (fs : JsonFields) (k : Name) (v : Json) : JsonFields :=
  match fs with
  | JsonFields.fnil => JsonFields.fcons k v JsonFields.fnil
  | JsonFields.fcons k' w tl => JsonFields.fcons k' w (snocF tl k v)

/-- Append a list of fields at the end of a record. -/
def appendRowF (gs : JsonFields) : Row → JsonFields
  | [] => gs
  | (k, v) :: cells => appendRowF (snocF gs k v) cells

/-- Concatenation of two field lists. -/
def appendF : JsonFields → JsonFields → JsonFields
  | JsonFields.fnil, hs => hs
  | JsonFields.fcons k v tl, hs => JsonFields.fcons k v (appendF tl hs)

/-- Modelled from the spec: `st.slider("⏱ Auto-Refresh Rate", 10, 300, 30)`
(line 28) — the slider widget (a framework service) returns the user's
choice clamped to the configured bounds. -/
def refreshRateVal (u : Int) : Int := max 10 (min 300 u)

/-- Modelled from the spec: the single-threaded cooperative execution model
(spec §5) — each cycle occupies a start/finish time interval, every cycle
finishes before the next one starts, and no cycle finishes before it
starts. -/
def Sequenced (tr : List (Nat × Nat)) : Prop :=
  (∀ p ∈ tr, p.1 ≤ p.2) ∧ List.Chain' (fun a b => a.2 ≤ b.1) tr

/-- A small concrete table used to instantiate the universally quantified
theorems: one `status` column over three submissions. -/
def sampleTable : Table :=
  { cols := [nm "status"]
  , rows := [[(nm "status", Json.str (nm "ok"))],
             [(nm "status", Json.str (nm "ok"))],
             [(nm "status", Json.null)]] }

/-- A concrete table whose only column holds an unhashable (array) cell. -/
def arrayCellTable : Table :=
  { cols := [nm "a"]
  , rows := [[(nm "a", Json.arr JsonList.nil)]] }

/-- A concrete table with two geo-like columns and one row with a null
coordinate. -/
def geoSampleTable : Table :=
  { cols := [nm "geo.lat", nm "geo.lon"]
  , rows := [[(nm "geo.lat", Json.num 10), (nm "geo.lon", Json.num 20)],
             [(nm "geo.lat", Json.null), (nm "geo.lon", Json.num 20)]] }

/-! ## Helper lemmas about first-seen deduplication -/

theorem mem_dedupFirstAux {α : Type} [DecidableEq α] (a : α) :
    ∀ (l seen : List α), a ∈ dedupFirstAux seen l ↔ a ∈ l ∧ a ∉ seen
  | [], seen => by simp [dedupFirstAux]
  | b :: l, seen => by
      by_cases hb : b ∈ seen
      · rw [dedupFirstAux, if_pos hb, mem_dedupFirstAux a l seen]
        constructor
        · rintro ⟨h1, h2⟩
          exact ⟨List.mem_cons_of_mem _ h1, h2⟩
        · rintro ⟨h1, h2⟩
          rcases List.mem_cons.mp h1 with rfl | h1
          · exact absurd hb h2
          · exact ⟨h1, h2⟩
      · rw [dedupFirstAux, if_neg hb]
        by_cases hab : a = b
        · subst hab
          simp [hb]
        · simp only [List.mem_cons, hab, false_or]
          rw [mem_dedupFirstAux a l (b :: seen)]
          simp only [List.mem_cons, hab, false_or]

theorem nodup_dedupFirstAux {α : Type} [DecidableEq α] :
    ∀ (l seen : List α), (dedupFirstAux seen l).Nodup
  | [], _ => by simp [dedupFirstAux]
  | b :: l, seen => by
      by_cases hb : b ∈ seen
      · rw [dedupFirstAux, if_pos hb]
        exact nodup_dedupFirstAux l seen
      · rw [dedupFirstAux, if_neg hb]
        refine List.nodup_cons.mpr ⟨?_, nodup_dedupFirstAux l (b :: seen)⟩
        intro hmem
        exact absurd (List.mem_cons_self b seen) (mem_dedupFirstAux b l (b :: seen) |>.mp hmem).2

theorem mem_dedupFirst {α : Type} [DecidableEq α] {a : α} {l : List α} :
    a ∈ dedupFirst l ↔ a ∈ l := by
  rw [dedupFirst, mem_dedupFirstAux]
  simp

theorem nodup_dedupFirst {α : Type} [DecidableEq α] (l : List α) :
    (dedupFirst l).Nodup := nodup_dedupFirstAux l []

theorem dedupFirst_perm_dedup {α : Type} [DecidableEq α] (l : List α) :
    List.Perm (dedupFirst l) l.dedup :=
  (List.perm_ext_iff_of_nodup (nodup_dedupFirst l) l.nodup_dedup).mpr fun a => by
    rw [mem_dedupFirst, List.mem_dedup]

theorem sum_count_dedupFirst {α : Type} [DecidableEq α] (l : List α) :
    ((dedupFirst l).map (fun v => l.count v)).sum = l.length := by
  rw [((dedupFirst_perm_dedup l).map (fun v => l.count v)).sum_eq]
  exact List.sum_map_count_dedup_eq_length l

/-! ## Value counts: helper lemmas -/

theorem valueCounts_perm (col : List Json) :
    List.Perm (valueCounts col)
      ((dedupFirst (col.filter (fun v => !(v == Json.null)))).map
        (fun v => (v, (col.filter (fun v => !(v == Json.null))).count v))) :=
  List.perm_insertionSort countGE _

theorem valueCounts_keys_perm (col : List Json) :
    List.Perm ((valueCounts col).map Prod.fst)
      (dedupFirst (col.filter (fun v => !(v == Json.null)))) := by
  have h := (valueCounts_perm col).map Prod.fst
  simpa [List.map_map, Function.comp_def] using h

/-- Claim C3 (confirmed): whenever the chart construction succeeds on a
column (all cells hashable, the non-raising path of lines 130–143), the
value-count aggregation has pairwise-distinct keys, its keys are exactly
the distinct non-null values occurring in the column, each count is the
actual number of occurrences, the counts sum to the number of non-null
cells, and the entries are in descending count order. -/
theorem valueCounts_spec (t : Table) (c : Name) (vc : List (Json × Nat))
    (h : buildChart t c = some vc) :
    (vc.map Prod.fst).Nodup
    ∧ (∀ v, v ∈ vc.map Prod.fst ↔ v ∈ colVals t c ∧ v ≠ Json.null)
    ∧ ((vc.map Prod.snd).sum
        = ((colVals t c).filter (fun v => !(v == Json.null))).length)
    ∧ (∀ q ∈ vc, q.2 = ((colVals t c).filter (fun v => !(v == Json.null))).count q.1)
    ∧ List.Pairwise countGE vc := by
  have hvc : vc = valueCounts (colVals t c) := by
    by_cases hs : (colVals t c).all isScalar
    · rw [buildChart, if_pos hs] at h
      exact (Option.some.inj h).symm
    · rw [buildChart, if_neg hs] at h
      exact absurd h (by simp)
  subst hvc
  refine ⟨?_, ?_, ?_, ?_, ?_⟩
  · exact (valueCounts_keys_perm (colVals t c)).symm.nodup
      (nodup_dedupFirst (List.filter (fun v => !(v == Json.null)) (colVals t c)))
  · intro v
    rw [(valueCounts_keys_perm (colVals t c)).mem_iff, mem_dedupFirst, List.mem_filter]
    simp
  · have hp := ((valueCounts_perm (colVals t c)).map Prod.snd).sum_eq
    rw [hp, List.map_map]
    have : (Prod.snd ∘ fun v =>
        (v, ((colVals t c).filter (fun v => !(v == Json.null))).count v))
        = fun v => ((colVals t c).filter (fun v => !(v == Json.null))).count v := rfl
    rw [this]
    exact sum_count_dedupFirst _
  · intro q hq
    have hq' := ((valueCounts_perm (colVals t c)).mem_iff).mp hq
    obtain ⟨v, _, hv⟩ := List.mem_map.mp hq'
    rw [← hv]
  · have hs := List.sorted_insertionSort countGE
      ((dedupFirst ((colVals t c).filter (fun v => !(v == Json.null)))).map
        (fun v => (v, ((colVals t c).filter (fun v => !(v == Json.null))).count v)))
    exact hs

/-- Witness for C3: the claim theorem applied at a concrete table and
column, all hypotheses discharged by evaluation. -/
theorem valueCounts_spec_witness :
    ((valueCounts (colVals sampleTable (nm "status"))).map Prod.fst).Nodup
    ∧ (∀ v, v ∈ (valueCounts (colVals sampleTable (nm "status"))).map Prod.fst
        ↔ v ∈ colVals sampleTable (nm "status") ∧ v ≠ Json.null)
    ∧ (((valueCounts (colVals sampleTable (nm "status"))).map Prod.snd).sum
        = ((colVals sampleTable (nm "status")).filter (fun v => !(v == Json.null))).length)
    ∧ (∀ q ∈ valueCounts (colVals sampleTable (nm "status")),
        q.2 = ((colVals sampleTable (nm "status")).filter (fun v => !(v == Json.null))).count q.1)
    ∧ List.Pairwise countGE (valueCounts (colVals sampleTable (nm "status"))) :=
  valueCounts_spec sampleTable (nm "status") _ (by decide)

/-! ## Filter engine: helper lemmas -/

theorem applyFilters_eq_filter :
    ∀ (sel : List (Name × List Json)) (rows : List Row),
    (∀ p ∈ sel, p.2 ≠ []) →
    applyFilters sel rows = rows.filter (selPred sel)
  | [], rows, _ => by
      show rows = _
      exact (List.filter_eq_self.mpr (fun a _ => rfl)).symm
  | p :: sel, rows, hne => by
      have hp : p.2 ≠ [] := hne p (List.mem_cons_self p sel)
      have hstep : applyFilters (p :: sel) rows
          = applyFilters sel (rows.filter (fun r => p.2.contains (getVal r p.1))) := by
        simp [applyFilters, hp]
      rw [hstep, applyFilters_eq_filter sel _ (fun q hq => hne q (List.mem_cons_of_mem p hq)),
        List.filter_filter]
      refine List.filter_congr ?_
      intro r _
      simp [selPred, Bool.and_comm]

/-- Claim C2 (confirmed): provided every column of the selection has a
non-empty accepted set with no null in it (the only selections the widget
of lines 108–110 can produce — values are chosen from
`df[col].dropna().unique()` and a column with no chosen values is skipped),
the filtered output is exactly the rows satisfying the selection
predicate: a row appears iff its cell in every selected column belongs to
that column's accepted set; null cells never match; the output is never
longer than the input; the empty selection returns the table unchanged. -/
theorem filterEngine_spec (sel : List (Name × List Json)) (rows : List Row)
    (hne : ∀ p ∈ sel, p.2 ≠ []) (hnn : ∀ p ∈ sel, Json.null ∉ p.2) :
    (applyFilters sel rows = rows.filter (selPred sel))
    ∧ (∀ r, r ∈ applyFilters sel rows ↔ r ∈ rows ∧ ∀ p ∈ sel, getVal r p.1 ∈ p.2)
    ∧ (∀ r ∈ applyFilters sel rows, ∀ p ∈ sel, getVal r p.1 ≠ Json.null)
    ∧ ((applyFilters sel rows).length ≤ rows.length)
    ∧ (applyFilters [] rows = rows) := by
  have heq := applyFilters_eq_filter sel rows hne
  have hmem : ∀ r, r ∈ applyFilters sel rows ↔ r ∈ rows ∧ ∀ p ∈ sel, getVal r p.1 ∈ p.2 := by
    intro r
    rw [heq, List.mem_filter]
    constructor
    · rintro ⟨hr, hp⟩
      refine ⟨hr, ?_⟩
      intro p hpsel
      have := (List.all_eq_true.mp hp) p hpsel
      exact List.elem_iff.mp this
    · rintro ⟨hr, hp⟩
      refine ⟨hr, List.all_eq_true.mpr ?_⟩
      intro p hpsel
      exact List.elem_iff.mpr (hp p hpsel)
  refine ⟨heq, hmem, ?_, ?_, rfl⟩
  · intro r hr p hpsel hnull
    have := ((hmem r).mp hr).2 p hpsel
    rw [hnull] at this
    exact hnn p hpsel this
  · rw [heq]
    exact List.length_filter_le _ _

/-- Witness for C2: the claim theorem applied to a concrete selection and
table, hypotheses discharged by evaluation. -/
theorem filterEngine_spec_witness :
    (applyFilters [(nm "status", [Json.str (nm "ok")])] sampleTable.rows
      = sampleTable.rows.filter (selPred [(nm "status", [Json.str (nm "ok")])]))
    ∧ (∀ r, r ∈ applyFilters [(nm "status", [Json.str (nm "ok")])] sampleTable.rows
        ↔ r ∈ sampleTable.rows
          ∧ ∀ p ∈ [(nm "status", [Json.str (nm "ok")])], getVal r p.1 ∈ p.2)
    ∧ (∀ r ∈ applyFilters [(nm "status", [Json.str (nm "ok")])] sampleTable.rows,
        ∀ p ∈ [(nm "status", [Json.str (nm "ok")])], getVal r p.1 ≠ Json.null)
    ∧ ((applyFilters [(nm "status", [Json.str (nm "ok")])] sampleTable.rows).length
        ≤ sampleTable.rows.length)
    ∧ (applyFilters [] sampleTable.rows = sampleTable.rows) :=
  filterEngine_spec [(nm "status", [Json.str (nm "ok")])] sampleTable.rows
    (by decide) (by decide)

/-! ## Geo column choice: helper lemmas -/

theorem filter_split_one {α : Type} (p : α → Bool) :
    ∀ l : List α, l.filter p ≠ [] →
    ∃ l1 a l2, l = l1 ++ a :: l2 ∧ p a = true ∧ (∀ x ∈ l1, p x = false)
  | [], hl => absurd rfl hl
  | b :: l, hl => by
      by_cases hb : p b
      · exact ⟨[], b, l, rfl, hb, by simp⟩
      · have hbl : (b :: l).filter p = l.filter p := by
          simp [List.filter_cons, hb]
        obtain ⟨l1, a, l2, rfl, ha, h1⟩ := filter_split_one p l (by rwa [hbl] at hl)
        refine ⟨b :: l1, a, l2, rfl, ha, ?_⟩
        intro x hx
        rcases List.mem_cons.mp hx with rfl | hx
        · simpa using hb
        · exact h1 x hx

theorem filter_split_two {α : Type} (p : α → Bool) (l : List α)
    (h : 2 ≤ (l.filter p).length) :
    ∃ l1 a l2 b l3, l = l1 ++ a :: (l2 ++ b :: l3)
      ∧ p a = true ∧ p b = true
      ∧ (∀ x ∈ l1, p x = false) ∧ (∀ x ∈ l2, p x = false) := by
  have hne : l.filter p ≠ [] := by
    intro e
    rw [e] at h
    simp at h
  obtain ⟨l1, a, mid, rfl, ha, h1⟩ := filter_split_one p l hne
  have hmid : mid.filter p ≠ [] := by
    intro e
    have : ((l1 ++ a :: mid).filter p).length = 1 := by
      rw [List.filter_append, List.filter_eq_nil_iff.mpr (by simpa using h1),
        List.filter_cons_of_pos ha, e]
      rfl
    omega
  obtain ⟨l2, b, l3, rfl, hb, h2⟩ := filter_split_one p mid hmid
  exact ⟨l1, a, l2, b, l3, rfl, ha, hb, h1, h2⟩

theorem geoCols_decomp (l1 l2 l3 : List Name) (a b : Name)
    (ha : isGeoLike a = true) (hb : isGeoLike b = true)
    (h1 : ∀ x ∈ l1, isGeoLike x = false) (h2 : ∀ x ∈ l2, isGeoLike x = false) :
    geoCols (l1 ++ a :: (l2 ++ b :: l3)) = a :: b :: geoCols l3 := by
  rw [geoCols, List.filter_append, List.filter_eq_nil_iff.mpr (by simpa using h1),
    List.filter_cons_of_pos ha, List.filter_append,
    List.filter_eq_nil_iff.mpr (by simpa using h2), List.filter_cons_of_pos hb]
  rfl

/-- Claim C1 (corrected): with at least two geo-like columns present, the
chosen latitude column is the *first* column whose name contains `"lat"`
or `"lon"` case-insensitively — positional, with no per-role matching —
and the chosen longitude column is the *second* such column. -/
theorem geoChoice_positional (cols : List Name) (h : 2 ≤ (geoCols cols).length) :
    ∃ l1 a l2 b l3, cols = l1 ++ a :: (l2 ++ b :: l3)
      ∧ isGeoLike a = true ∧ isGeoLike b = true
      ∧ (∀ x ∈ l1, isGeoLike x = false) ∧ (∀ x ∈ l2, isGeoLike x = false)
      ∧ latCol? cols = some a ∧ lonCol? cols = some b := by
  obtain ⟨l1, a, l2, b, l3, rfl, ha, hb, h1, h2⟩ := filter_split_two isGeoLike cols h
  have hg := geoCols_decomp l1 l2 l3 a b ha hb h1 h2
  refine ⟨l1, a, l2, b, l3, rfl, ha, hb, h1, h2, ?_, ?_⟩
  · rw [latCol?, hg]
    rfl
  · rw [lonCol?, hg]
    rfl

/-- Witness for the corrected C1 claim at a concrete column list. -/
theorem geoChoice_positional_witness :
    2 ≤ (geoCols [nm "id", nm "Longitude", nm "Latitude"]).length
    ∧ ∃ l1 a l2 b l3, [nm "id", nm "Longitude", nm "Latitude"] = l1 ++ a :: (l2 ++ b :: l3)
      ∧ isGeoLike a = true ∧ isGeoLike b = true
      ∧ (∀ x ∈ l1, isGeoLike x = false) ∧ (∀ x ∈ l2, isGeoLike x = false)
      ∧ latCol? [nm "id", nm "Longitude", nm "Latitude"] = some a
      ∧ lonCol? [nm "id", nm "Longitude", nm "Latitude"] = some b :=
  ⟨by decide, geoChoice_positional [nm "id", nm "Longitude", nm "Latitude"] (by decide)⟩

/-- Counterexample to C1 as stated: over the columns `["lon", "lat"]` both
names are geo-like, so the heuristic fires, yet the column chosen for the
latitude role is `"lon"`, not the first column matching the `"lat"`
substring. -/
theorem geoChoice_byRole_counterexample :
    2 ≤ (geoCols [nm "lon", nm "lat"]).length
    ∧ latCol? [nm "lon", nm "lat"] = some (nm "lon")
    ∧ firstWithRole (nm "lat") [nm "lon", nm "lat"] = some (nm "lat")
    ∧ latCol? [nm "lon", nm "lat"] ≠ firstWithRole (nm "lat") [nm "lon", nm "lat"] := by
  refine ⟨by decide, by decide, by decide, by decide⟩

/-- Claim C4 (confirmed): the `results` array is flattened into the
Submission Table one row per record; a nested object key is joined to its
parent key with `.` (the record `{"a": {"b": 1}}` yields the column `a.b`
holding `1`); a nested array is kept as a single cell under its own key,
never exploded into extra rows. -/
theorem normalizeFlatten_spec :
    (∀ rs : List Json, (normalizeTable rs).rows.length = rs.length)
    ∧ (∀ rs : List Json, (normalizeTable rs).rows = rs.map flatRecord)
    ∧ (flatRecord (Json.obj (JsonFields.fcons (nm "a")
          (Json.obj (JsonFields.fcons (nm "b") (Json.num 1) JsonFields.fnil))
          JsonFields.fnil))
        = [(nm "a.b", Json.num 1)])
    ∧ ((normalizeTable [Json.obj (JsonFields.fcons (nm "a")
          (Json.obj (JsonFields.fcons (nm "b") (Json.num 1) JsonFields.fnil))
          JsonFields.fnil)]).cols
        = [nm "a.b"])
    ∧ (∀ (pre k : Name) (xs : JsonList) (tl : JsonFields),
        flattenFields pre (JsonFields.fcons k (Json.arr xs) tl)
          = (pre ++ k, Json.arr xs) :: flattenFields pre tl) := by
  refine ⟨?_, ?_, by decide, by decide, ?_⟩
  · intro rs
    simp [normalizeTable]
  · intro rs
    rfl
  · intro pre k xs tl
    rfl

/-! ## Round-trip helper lemmas -/

theorem flattenVal_scalar {v : Json} (hv : isScalar v = true) (key : Name) :
    flattenVal key v = [(key, v)] := by
  cases v with
  | null => rfl
  | bool b => rfl
  | num n => rfl
  | str s => rfl
  | arr xs => rfl
  | obj fs => simp [isScalar] at hv

theorem flattenFields_scalars :
    ∀ (fs : JsonFields), scalarsF fs = true → ∀ (pre : Name),
    flattenFields pre fs = (toListF fs).map (fun q => (pre ++ q.1, q.2))
  | JsonFields.fnil, _, pre => rfl
  | JsonFields.fcons k v tl, hs, pre => by
      have hv : isScalar v = true := by
        have := hs
        simp only [scalarsF, Bool.and_eq_true] at this
        exact this.1
      have htl : scalarsF tl = true := by
        have := hs
        simp only [scalarsF, Bool.and_eq_true] at this
        exact this.2
      show flattenVal (pre ++ k) v ++ flattenFields pre tl = _
      rw [flattenVal_scalar hv, flattenFields_scalars tl htl pre]
      rfl

theorem flattenFields_flat (fs : JsonFields) (hs : scalarsF fs = true) :
    flattenFields [] fs = toListF fs := by
  rw [flattenFields_scalars fs hs []]
  simp

theorem splitDot_dotFree : ∀ k : Name, k.contains '.' = false → splitDot k = [k]
  | [], _ => rfl
  | c :: rest, h => by
      by_cases hc : c = '.'
      · subst hc
        simp [List.contains_cons] at h
      · have hrest : rest.contains '.' = false := by
          simp only [List.contains_cons, Bool.or_eq_false_iff] at h
          exact h.2
        rw [splitDot, if_neg hc, splitDot_dotFree rest hrest]

theorem keysF_snocF (k : Name) (v : Json) :
    ∀ gs : JsonFields, keysF (snocF gs k v) = keysF gs ++ [k]
  | JsonFields.fnil => rfl
  | JsonFields.fcons k' w tl => by
      show k' :: keysF (snocF tl k v) = _
      rw [keysF_snocF k v tl]
      rfl

theorem updateField_notMem (k : Name) (f : Json → Json) (d : Json) :
    ∀ gs : JsonFields, k ∉ keysF gs → updateField k f d gs = snocF gs k (f d)
  | JsonFields.fnil, _ => rfl
  | JsonFields.fcons k' w tl, hk => by
      have hne : k' ≠ k := by
        intro e
        exact hk (e ▸ List.mem_cons_self k' (keysF tl))
      rw [updateField, if_neg hne,
        updateField_notMem k f d tl (fun hm => hk (List.mem_cons_of_mem k' hm))]
      rfl

theorem appendF_snocF (k : Name) (v : Json) (hs : JsonFields) :
    ∀ gs : JsonFields,
    appendF (snocF gs k v) hs = appendF gs (JsonFields.fcons k v hs)
  | JsonFields.fnil => rfl
  | JsonFields.fcons k' w tl => by
      show JsonFields.fcons k' w (appendF (snocF tl k v) hs) = _
      rw [appendF_snocF k v hs tl]
      rfl

theorem appendF_fnil : ∀ gs : JsonFields, appendF gs JsonFields.fnil = gs
  | JsonFields.fnil => rfl
  | JsonFields.fcons k w tl => by
      show JsonFields.fcons k w (appendF tl JsonFields.fnil) = _
      rw [appendF_fnil tl]

theorem appendRowF_toListF :
    ∀ (fs gs : JsonFields), appendRowF gs (toListF fs) = appendF gs fs
  | JsonFields.fnil, gs => by
      show gs = appendF gs JsonFields.fnil
      rw [appendF_fnil]
  | JsonFields.fcons k v tl, gs => by
      show appendRowF (snocF gs k v) (toListF tl) = _
      rw [appendRowF_toListF tl (snocF gs k v), appendF_snocF]

theorem keysF_toListF :
    ∀ fs : JsonFields, (toListF fs).map Prod.fst = keysF fs
  | JsonFields.fnil => rfl
  | JsonFields.fcons k v tl => by
      show k :: (toListF tl).map Prod.fst = _
      rw [keysF_toListF tl]
      rfl

theorem dotFreeF_mem :
    ∀ fs : JsonFields, dotFreeF fs = true →
    ∀ q ∈ toListF fs, q.1.contains '.' = false
  | JsonFields.fnil, _, q, hq => absurd hq (List.not_mem_nil q)
  | JsonFields.fcons k v tl, h, q, hq => by
      simp only [dotFreeF, Bool.and_eq_true, Bool.not_eq_true'] at h
      rcases List.mem_cons.mp hq with rfl | hq'
      · exact h.1
      · exact dotFreeF_mem tl h.2 q hq'

theorem insertPath_fold :
    ∀ (cells : Row) (gs : JsonFields),
    (∀ q ∈ cells, q.1.contains '.' = false) →
    (keysF gs ++ cells.map Prod.fst).Nodup →
    List.foldl (fun acc q => insertPath (splitDot q.1) q.2 acc) (Json.obj gs) cells
      = Json.obj (appendRowF gs cells)
  | [], gs, _, _ => rfl
  | (k, v) :: cells, gs, hdot, hnd => by
      have hk : k ∉ keysF gs := by
        rw [List.nodup_append] at hnd
        intro hmem
        exact hnd.2.2 hmem (List.mem_cons_self k (cells.map Prod.fst))
      have hsplit : splitDot k = [k] :=
        splitDot_dotFree k (hdot (k, v) (List.mem_cons_self (k, v) cells))
      have hstep : insertPath (splitDot k) v (Json.obj gs) = Json.obj (snocF gs k v) := by
        rw [hsplit]
        show Json.obj (updateField k (insertPath [] v) (Json.obj JsonFields.fnil) gs) = _
        rw [updateField_notMem k (insertPath [] v) (Json.obj JsonFields.fnil) gs hk]
        rfl
      have hnd' : (keysF (snocF gs k v) ++ cells.map Prod.fst).Nodup := by
        rw [keysF_snocF, List.append_assoc, List.singleton_append]
        exact hnd
      calc List.foldl (fun acc q => insertPath (splitDot q.1) q.2 acc) (Json.obj gs)
            ((k, v) :: cells)
          = List.foldl (fun acc q => insertPath (splitDot q.1) q.2 acc)
              (insertPath (splitDot k) v (Json.obj gs)) cells := rfl
        _ = List.foldl (fun acc q => insertPath (splitDot q.1) q.2 acc)
              (Json.obj (snocF gs k v)) cells := by rw [hstep]
        _ = Json.obj (appendRowF (snocF gs k v) cells) :=
              insertPath_fold cells (snocF gs k v)
                (fun q hq => hdot q (List.mem_cons_of_mem (k, v) hq)) hnd'
        _ = Json.obj (appendRowF gs ((k, v) :: cells)) := rfl

/-- Claim C5 (corrected): flattening followed by re-nesting on `.`
recovers a flat object provided its keys are pairwise distinct and contain
no `.` themselves; a flat object whose keys already contain a `.` is torn
apart by the re-nesting (see the counterexample). -/
theorem roundTrip_dotFree (fs : JsonFields) (hscalar : scalarsF fs = true)
    (hdot : dotFreeF fs = true) (hnodup : (keysF fs).Nodup) :
    unflattenRecord (flattenFields [] fs) = Json.obj fs := by
  rw [unflattenRecord, flattenFields_flat fs hscalar]
  rw [insertPath_fold (toListF fs) JsonFields.fnil (dotFreeF_mem fs hdot)
    (by rw [keysF_toListF]; simpa using hnodup)]
  rw [appendRowF_toListF]
  rfl

/-- Witness for the corrected C5 claim at a concrete flat record. -/
theorem roundTrip_dotFree_witness :
    unflattenRecord (flattenFields []
        (JsonFields.fcons (nm "a") (Json.num 1)
          (JsonFields.fcons (nm "b") (Json.str (nm "x")) JsonFields.fnil)))
      = Json.obj (JsonFields.fcons (nm "a") (Json.num 1)
          (JsonFields.fcons (nm "b") (Json.str (nm "x")) JsonFields.fnil)) :=
  roundTrip_dotFree _ (by decide) (by decide) (by decide)

/-- Counterexample to C5 as stated: the flat object `{"a.b": 1}` (a single
scalar field, distinct keys) flattens to itself, but re-nesting on `.`
yields `{"a": {"b": 1}}`, not the original object. -/
theorem roundTrip_counterexample :
    scalarsF (JsonFields.fcons (nm "a.b") (Json.num 1) JsonFields.fnil) = true
    ∧ (keysF (JsonFields.fcons (nm "a.b") (Json.num 1) JsonFields.fnil)).Nodup
    ∧ unflattenRecord (flattenFields []
          (JsonFields.fcons (nm "a.b") (Json.num 1) JsonFields.fnil))
        = Json.obj (JsonFields.fcons (nm "a")
            (Json.obj (JsonFields.fcons (nm "b") (Json.num 1) JsonFields.fnil))
            JsonFields.fnil)
    ∧ unflattenRecord (flattenFields []
          (JsonFields.fcons (nm "a.b") (Json.num 1) JsonFields.fnil))
        ≠ Json.obj (JsonFields.fcons (nm "a.b") (Json.num 1) JsonFields.fnil) := by
  refine ⟨by decide, by decide, by decide, by decide⟩

/-- Claim C6 (confirmed): a non-200 response makes the fetch fail with the
remote-unavailable outcome carrying the status code, the cycle renders no
table, and under the cooperative scheduler every other tick is processed
exactly as it would be on its own — a failing tick never stops later ticks
from retrying. -/
theorem fetchFailure_spec (resp : HttpResponse) (h : resp.status ≠ 200) :
    fetchKobo resp = FetchOutcome.remoteUnavailable resp.status
    ∧ runCycle resp = CycleOutcome.fetchFailed resp.status
    ∧ (∀ t, runCycle resp ≠ CycleOutcome.rendered t)
    ∧ (∀ pre post, runTicks (pre ++ resp :: post)
        = runTicks pre ++ CycleOutcome.fetchFailed resp.status :: runTicks post) := by
  have h1 : fetchKobo resp = FetchOutcome.remoteUnavailable resp.status := by
    rw [fetchKobo, if_pos h]
  have h2 : runCycle resp = CycleOutcome.fetchFailed resp.status := by
    rw [runCycle, h1]
  refine ⟨h1, h2, ?_, ?_⟩
  · intro t he
    rw [h2] at he
    exact CycleOutcome.noConfusion he
  · intro pre post
    rw [runTicks, List.map_append, List.map_cons, h2]
    rfl

/-- Witness for C6 at a concrete 401 response. -/
theorem fetchFailure_spec_witness :
    fetchKobo ⟨401, none⟩ = FetchOutcome.remoteUnavailable 401
    ∧ runCycle ⟨401, none⟩ = CycleOutcome.fetchFailed 401
    ∧ (∀ t, runCycle ⟨401, none⟩ ≠ CycleOutcome.rendered t)
    ∧ (∀ pre post, runTicks (pre ++ (⟨401, none⟩ : HttpResponse) :: post)
        = runTicks pre ++ CycleOutcome.fetchFailed 401 :: runTicks post) :=
  fetchFailure_spec ⟨401, none⟩ (by decide)

/-- Claim C7 (confirmed): with fewer than two geo-like columns the geo
extraction yields nothing (the map section is skipped, no error); with at
least two, it yields a point table in which no row has a null in either
coordinate. -/
theorem geoExtract_spec (t : Table) :
    ((geoCols t.cols).length < 2 → extractGeoPoints t = none)
    ∧ (2 ≤ (geoCols t.cols).length →
        ∃ pts, extractGeoPoints t = some pts
          ∧ ∀ q ∈ pts, q.1 ≠ Json.null ∧ q.2 ≠ Json.null) := by
  constructor
  · intro h
    rcases hg : geoCols t.cols with _ | ⟨c0, _ | ⟨c1, rest⟩⟩
    · rw [extractGeoPoints, hg]
    · rw [extractGeoPoints, hg]
    · rw [hg] at h
      simp only [List.length_cons] at h
      omega
  · intro h
    rcases hg : geoCols t.cols with _ | ⟨c0, _ | ⟨c1, rest⟩⟩
    · rw [hg] at h
      simp at h
    · rw [hg] at h
      simp at h
    · refine ⟨_, by rw [extractGeoPoints, hg], ?_⟩
      intro q hq
      have := (List.mem_filter.mp hq).2
      simp only [Bool.and_eq_true, Bool.not_eq_true', beq_eq_false_iff_ne] at this
      exact this

/-- Witness for C7: the second branch applied to a concrete table with two
geo-like columns and one null-coordinate row. -/
theorem geoExtract_spec_witness :
    2 ≤ (geoCols geoSampleTable.cols).length
    ∧ ∃ pts, extractGeoPoints geoSampleTable = some pts
        ∧ ∀ q ∈ pts, q.1 ≠ Json.null ∧ q.2 ≠ Json.null :=
  ⟨by decide, (geoExtract_spec geoSampleTable).2 (by decide)⟩

/-- Claim C8 (confirmed): when the chart construction fails (the column is
unplottable), the failure is absorbed locally — the render pass still
performs geo extraction and CSV export exactly as it would for any chart
column, and only the chart slot is downgraded to the warning state. -/
theorem chartFailure_spec (t : Table) (c : Name) (hfail : buildChart t c = none) :
    (renderPass t c).chart = none
    ∧ (renderPass t c).geo = extractGeoPoints t
    ∧ (renderPass t c).csv = toCsv t
    ∧ (∀ c', (renderPass t c).geo = (renderPass t c').geo
        ∧ (renderPass t c).csv = (renderPass t c').csv) :=
  ⟨hfail, rfl, rfl, fun _ => ⟨rfl, rfl⟩⟩

/-- Witness for C8 at a concrete table whose chart column holds an array
cell. -/
theorem chartFailure_spec_witness :
    (renderPass arrayCellTable (nm "a")).chart = none
    ∧ (renderPass arrayCellTable (nm "a")).geo = extractGeoPoints arrayCellTable
    ∧ (renderPass arrayCellTable (nm "a")).csv = toCsv arrayCellTable
    ∧ (∀ c', (renderPass arrayCellTable (nm "a")).geo
          = (renderPass arrayCellTable c').geo
        ∧ (renderPass arrayCellTable (nm "a")).csv
          = (renderPass arrayCellTable c').csv) :=
  chartFailure_spec arrayCellTable (nm "a") (by decide)

/-- Claim C10 (confirmed): a 200 response whose JSON body has no `results`
key is not treated as malformed — the fetch succeeds with the empty table
and the cycle ends in the informational empty-result state. -/
theorem emptyResults_spec (fs : JsonFields)
    (h : lookupF (nm "results") fs = none) :
    fetchKobo ⟨200, some (Json.obj fs)⟩ = FetchOutcome.success (normalizeTable [])
    ∧ (normalizeTable []).rows = []
    ∧ runCycle ⟨200, some (Json.obj fs)⟩ = CycleOutcome.emptyInfo := by
  have hres : getResults? (Json.obj fs) = some [] := by
    rw [getResults?, h]
  have h1 : fetchKobo ⟨200, some (Json.obj fs)⟩
      = FetchOutcome.success (normalizeTable []) := by
    rw [fetchKobo, if_neg (by simp)]
    show (match getResults? (Json.obj fs) with
      | some recs => FetchOutcome.success (normalizeTable recs)
      | none => FetchOutcome.malformedResponse) = _
    rw [hres]
  refine ⟨h1, rfl, ?_⟩
  rw [runCycle, h1]
  rfl

/-- Witness for C10 at the concrete body `{}`. -/
theorem emptyResults_spec_witness :
    fetchKobo ⟨200, some (Json.obj JsonFields.fnil)⟩
      = FetchOutcome.success (normalizeTable [])
    ∧ (normalizeTable []).rows = []
    ∧ runCycle ⟨200, some (Json.obj JsonFields.fnil)⟩ = CycleOutcome.emptyInfo :=
  emptyResults_spec JsonFields.fnil (by decide)

/-- Claim C9 (confirmed, modelled from the spec): under the single-threaded
cooperative execution model every cycle finishes before any later cycle
starts — no two fetch cycles are ever in flight together — and the
slider-configured refresh interval always lies in `[10, 300]` seconds. -/
theorem scheduler_spec (tr : List (Nat × Nat)) (u : Int) (hseq : Sequenced tr) :
    (∀ i j (hi : i < tr.length) (hj : j < tr.length), i < j →
      (tr.get ⟨i, hi⟩).2 ≤ (tr.get ⟨j, hj⟩).1)
    ∧ 10 ≤ refreshRateVal u ∧ refreshRateVal u ≤ 300 := by
  obtain ⟨hse, hch⟩ := hseq
  have hc := List.chain'_iff_get.mp hch
  refine ⟨?_, le_max_left 10 (min 300 u), max_le (by norm_num) (min_le_left 300 u)⟩
  intro i j hi hj hij
  induction j with
  | zero => omega
  | succ m ih =>
      rcases Nat.lt_or_ge i m with hlt | hge
      · have hm : m < tr.length := by omega
        calc (tr.get ⟨i, hi⟩).2
            ≤ (tr.get ⟨m, hm⟩).1 := ih hm hlt
          _ ≤ (tr.get ⟨m, hm⟩).2 := hse _ (tr.get_mem m hm)
          _ ≤ (tr.get ⟨m + 1, hj⟩).1 := hc m (by omega)
      · have him : i = m := by omega
        subst him
        exact hc i (by omega)

/-- Witness for C9 at a concrete two-cycle trace and slider input. -/
theorem scheduler_spec_witness :
    (∀ i j (hi : i < ([(0, 1), (2, 3)] : List (Nat × Nat)).length)
        (hj : j < ([(0, 1), (2, 3)] : List (Nat × Nat)).length), i < j →
      (([(0, 1), (2, 3)] : List (Nat × Nat)).get ⟨i, hi⟩).2
        ≤ (([(0, 1), (2, 3)] : List (Nat × Nat)).get ⟨j, hj⟩).1)
    ∧ 10 ≤ refreshRateVal 1000 ∧ refreshRateVal 1000 ≤ 300 :=
  scheduler_spec [(0, 1), (2, 3)] 1000 ⟨by decide, by simp [List.chain'_cons]⟩
